import Mathlib

/-!
Verification of the country-currency cache service (`hng-country-currency-api`).

The development shallowly embeds the refresh/reconciliation pipeline of
`src/services/refresh_service.rs` together with the pieces of
`src/types/external.rs`, `src/utils/error.rs` and the store it drives.
External effects (HTTP fetches, the MySQL connection, the random number
generator, both clocks, and the summary-image renderer) are supplied as
explicit oracles, so one evaluation of `refresh_cache` corresponds to one
run of the Rust function under a fixed outcome of every effect.

Floating-point values (`f64` rates, multipliers and GDP estimates) are
modelled as exact rationals; machine integers (`i64` populations, `u64`
counters) as `Int`/`Nat` (the counters only ever grow by one per catalog
record, far below any overflow boundary).
-/

deriving instance DecidableEq for Except

namespace CountryCache

/-- Drop leading whitespace characters (helper for `strTrim`). -/
def dropLeadingWs : List Char → List Char
  | [] => []
  | c :: rest => if c.isWhitespace then dropLeadingWs rest else c :: rest

/-- Rust's `str::trim`: strip leading and trailing whitespace.  Modelled
directly over the character list (structurally recursive, so concrete
runs reduce inside the kernel). -/
def strTrim (s : String) : String :=
  ⟨(dropLeadingWs (dropLeadingWs s.data).reverse).reverse⟩

/-- Per-character lowercasing, used to model the store's case-insensitive
collation on the natural key. -/
def strLower (s : String) : String :=
  ⟨s.data.map Char.toLower⟩

/-- Type `RcCurrency` from `src/types/external.rs`: one currency record of the
entity-catalog payload, optionally carrying a code. -/
structure RcCurrency where
  code : Option String
deriving DecidableEq, Repr

/-- Type `RcCountry` from `src/types/external.rs`: one record of the
entity-catalog payload.  `population` is an `Option<i64>` in the source,
so negative values pass deserialization. -/
structure RcCountry where
  name : String
  capital : Option String
  region : Option String
  population : Option Int
  flag : Option String
  currencies : Option (List RcCurrency)
deriving DecidableEq, Repr

/-- Type `ErRates` from `src/types/external.rs`: the rate-table payload, a map
from currency code to an `f64` rate.  The `HashMap` is modelled as an
association list queried by first match. -/
structure ErRates where
  rates : List (String × ℚ)
deriving DecidableEq, Repr

/-- Lookup in the modelled rate map (`rates_resp.rates.get(code)`). -/
def ratesGet : List (String × ℚ) → String → Option ℚ
  | [], _ => none
  | (k, v) :: rest, code => if k == code then some v else ratesGet rest code

/-- Type `ApiError` from `src/utils/error.rs`. -/
inductive ApiError where
  | validation (msg : String)
  | notFound (msg : String)
  | external (msg : String)
  | internal (msg : String)
deriving DecidableEq, Repr

/-- Type `RefreshResult` from `src/services/refresh_service.rs`. -/
structure RefreshResult where
  inserted : Nat
  updated : Nat
  last_refreshed_at : String
deriving DecidableEq, Repr

/-- One row of the `countries` table as written by `refresh_cache`
(the auto-increment `id` column is not modelled; no claim mentions it).
`last_refreshed_at` holds the value of the database clock `NOW()` at the
upsert statement that last touched the row, modelled as an abstract tick. -/
structure CountryRow where
  name : String
  capital : Option String
  region : Option String
  population : Int
  currency_code : Option String
  exchange_rate : Option ℚ
  estimated_gdp : Option ℚ
  flag_url : Option String
  last_refreshed_at : Nat
deriving DecidableEq, Repr

/-- The cache store: the `countries` table plus the `app_meta` key/value
table that holds the provenance record. -/
structure DbState where
  countries : List CountryRow
  app_meta : List (String × String)
deriving DecidableEq, Repr

/-- Outcome of one external fetch: the network/status stage can fail
(`reqwest`'s `.send()`), or the payload can fail to deserialize
(`.json()`), or the call yields a parsed value. -/
inductive FetchOutcome (α : Type) where
  | sendErr (msg : String)
  | parseErr (msg : String)
  | ok (val : α)

/-- Whether a fetch produced a parsed value. -/
def FetchOutcome.isOk : FetchOutcome α → Bool
  | .ok _ => true
  | _ => false

/-- Modelled from the spec: the migration file creating the `countries`
table is not under `src/`; the spec states the natural key `name` has
case-insensitive uniqueness (and the read handlers compare names with
`LOWER(name)=LOWER(?)`), so the unique-key comparison used by
`ON DUPLICATE KEY UPDATE` is modelled as case-insensitive equality. -/
def keyMatches (a b : String) : Bool :=
  strLower a == strLower b

/-- The `INSERT ... ON DUPLICATE KEY UPDATE` statement of `refresh_cache`
against the row list of the `countries` table.  Returns the new row list
together with MySQL's `rows_affected` signal for that statement:
`1` for a fresh insert, `2` for a duplicate-key update that changed at
least one column, `0` for a duplicate-key update that set every column to
its current value.  The update overwrites every mutable column but keeps
the stored key `name`. -/
def upsertList : List CountryRow → CountryRow → List CountryRow × Nat
  | [], r => ([r], 1)
  | old :: rest, r =>
    if keyMatches old.name r.name then
      let merged : CountryRow := { r with name := old.name }
      if merged = old then (old :: rest, 0) else (merged :: rest, 2)
    else
      let p := upsertList rest r
      (old :: p.1, p.2)

/-- Statement `REPLACE INTO app_meta (k, v) VALUES (?, ?)`: set key `k` to `v`. -/
def replaceMeta : List (String × String) → String → String → List (String × String)
  | [], k, v => [(k, v)]
  | (k', v') :: rest, k, v =>
    if k' == k then (k, v) :: rest else (k', v') :: replaceMeta rest k v

/-- Query `SELECT v FROM app_meta WHERE k = ?` (used by the `/status` handler in
`src/handlers/countries.rs`). -/
def metaGet : List (String × String) → String → Option String
  | [], _ => none
  | (k', v) :: rest, k => if k' == k then some v else metaGet rest k

/-- All the effects one run of `refresh_cache` consumes, fixed up front:
the two HTTP fetches as functions of the requested URL, the failure
behaviour of each database operation (`none` means the operation
succeeds, `some msg` that it errors with message `msg`), the random
multiplier the generator would return for the `i`-th catalog record, the
database clock `NOW()` at the `i`-th upsert statement, and the
application clock `Utc::now()` read once before the provenance write. -/
structure Oracles where
  fetchCountries : String → FetchOutcome (List RcCountry)
  fetchRates : String → FetchOutcome ErRates
  beginErr : Option String
  upsertErr : Nat → Option String
  metaErr : Option String
  commitErr : Option String
  mults : Nat → ℚ
  dbNow : Nat → Nat
  appNow : Nat

/-- The default restcountries URL hardcoded in `refresh_cache`. -/
def defaultCountriesUrl : String :=
  "https://restcountries.com/v2/all?fields=name,capital,region,population,flag,currencies"

/-- Expression `env::var("COUNTRIES_URL").unwrap_or(default_countries)`. -/
def countriesUrl (envv : String → Option String) : String :=
  (envv "COUNTRIES_URL").getD defaultCountriesUrl

/-- Expression `env::var("BASE_CURRENCY").unwrap_or_else(|_| "USD".into())`. -/
def baseCurrency (envv : String → Option String) : String :=
  (envv "BASE_CURRENCY").getD "USD"

/-- Expression reading `RATES_URL` from the environment, with the default built from the base currency. -/
def ratesUrl (envv : String → Option String) : String :=
  (envv "RATES_URL").getD ("https://open.er-api.com/v6/latest/" ++ baseCurrency envv)

/-- The Estimation Function: the `(exchange_rate, estimated_gdp)`
computation inlined in `refresh_cache` (lines 69-82 of
`src/services/refresh_service.rs`).  `multiplier` stands for the value
`rand::thread_rng().gen_range(1000.0..=2000.0)` would return; it is only
consulted on the branch that actually draws. -/
def estimate (population : Int) (currency_code : Option String) (rates_resp : ErRates)
    (multiplier : ℚ) : Option ℚ × Option ℚ :=
  match currency_code with
  | none => (none, some 0)
  | some code =>
    match ratesGet rates_resp.rates code with
    | none => (none, none)
    | some rate =>
      if 0 < rate then (some rate, some ((population : ℚ) * multiplier / rate))
      else (none, none)

/-- Field normalization of one catalog record plus the estimation step:
trim the strings, default a missing population to `0`, take the first
listed currency's code if any, and stamp the row with the database clock
of its own upsert statement. -/
def normalizeRow (o : Oracles) (rates_resp : ErRates) (i : Nat) (c : RcCountry) : CountryRow :=
  let er := estimate (c.population.getD 0)
      (((c.currencies.bind List.head?).bind RcCurrency.code).map strTrim) rates_resp
      (o.mults i)
  { name := strTrim c.name
    capital := c.capital.map strTrim
    region := c.region.map strTrim
    population := c.population.getD 0
    currency_code := ((c.currencies.bind List.head?).bind RcCurrency.code).map strTrim
    exchange_rate := er.1
    estimated_gdp := er.2
    flag_url := c.flag.map strTrim
    last_refreshed_at := o.dbNow i }

/-- The upsert loop of `refresh_cache` inside the open transaction:
process the catalog records in payload order, classify each statement by
its `rows_affected` (`1` increments `inserted`, `2` increments `updated`,
anything else neither), and stop with `ApiError::Internal` at the first
failing statement. -/
def runUpserts (o : Oracles) (rr : ErRates) :
    List RcCountry → Nat → List CountryRow → Nat → Nat →
    Except ApiError (List CountryRow × Nat × Nat)
  | [], _, rows, inserted, updated => .ok (rows, inserted, updated)
  | c :: rest, i, rows, inserted, updated =>
    match o.upsertErr i with
    | some e => .error (.internal ("db upsert failed: " ++ e))
    | none =>
      if (upsertList rows (normalizeRow o rr i c)).2 = 1 then
        runUpserts o rr rest (i + 1) (upsertList rows (normalizeRow o rr i c)).1
          (inserted + 1) updated
      else if (upsertList rows (normalizeRow o rr i c)).2 = 2 then
        runUpserts o rr rest (i + 1) (upsertList rows (normalizeRow o rr i c)).1
          inserted (updated + 1)
      else
        runUpserts o rr rest (i + 1) (upsertList rows (normalizeRow o rr i c)).1
          inserted updated

/-- The observable synchronous steps of one `refresh_cache` call, in the
order the caller's task executes (awaits) them. -/
inductive Ev where
  | httpGet (url : String)
  | txBegin
  | txMeta (v : String)
  | txCommit
  | render
  | logError (msg : String)
deriving DecidableEq, Repr

/-- Whether an event touches the cache store. -/
def isDbEvent : Ev → Bool
  | .txBegin => true
  | .txMeta _ => true
  | .txCommit => true
  | _ => false

/-- Function `refresh_cache` up to and including the commit, translated from
`src/services/refresh_service.rs` lines 17-130: read the endpoint
configuration from the process environment, perform both fetches, and on
success of both open the transaction, run the upserts, write the
provenance record from the application clock, and commit.  Any error
after `begin` returns the caller's pre-call store (the dropped `sqlx`
transaction rolls back), and the result carries the final store and the
ordered synchronous event trace. -/
def refresh_core (envv : String → Option String) (o : Oracles) (db : DbState) :
    Except ApiError RefreshResult × DbState × List Ev :=
  match o.fetchCountries (countriesUrl envv) with
  | .sendErr e =>
      (.error (.external ("Could not fetch data from restcountries: " ++ e)), db,
       [Ev.httpGet (countriesUrl envv)])
  | .parseErr e =>
      (.error (.external ("Could not parse countries: " ++ e)), db,
       [Ev.httpGet (countriesUrl envv)])
  | .ok countries =>
    match o.fetchRates (ratesUrl envv) with
    | .sendErr e =>
        (.error (.external ("Could not fetch data from open-er-api: " ++ e)), db,
         [Ev.httpGet (countriesUrl envv), Ev.httpGet (ratesUrl envv)])
    | .parseErr e =>
        (.error (.external ("Could not parse rates: " ++ e)), db,
         [Ev.httpGet (countriesUrl envv), Ev.httpGet (ratesUrl envv)])
    | .ok rates_resp =>
      match o.beginErr with
      | some e =>
          (.error (.internal e), db,
           [Ev.httpGet (countriesUrl envv), Ev.httpGet (ratesUrl envv)])
      | none =>
        match runUpserts o rates_resp countries 0 db.countries 0 0 with
        | .error err =>
            (.error err, db,
             [Ev.httpGet (countriesUrl envv), Ev.httpGet (ratesUrl envv), Ev.txBegin])
        | .ok (rows, inserted, updated) =>
          match o.metaErr with
          | some e =>
              (.error (.internal ("meta update failed: " ++ e)), db,
               [Ev.httpGet (countriesUrl envv), Ev.httpGet (ratesUrl envv), Ev.txBegin])
          | none =>
            match o.commitErr with
            | some e =>
                (.error (.internal e), db,
                 [Ev.httpGet (countriesUrl envv), Ev.httpGet (ratesUrl envv), Ev.txBegin,
                  Ev.txMeta (toString o.appNow)])
            | none =>
                (.ok ⟨inserted, updated, toString o.appNow⟩,
                 ⟨rows, replaceMeta db.app_meta "last_refreshed_at" (toString o.appNow)⟩,
                 [Ev.httpGet (countriesUrl envv), Ev.httpGet (ratesUrl envv), Ev.txBegin,
                  Ev.txMeta (toString o.appNow), Ev.txCommit])

/-- The post-commit render step (lines 132-134): `build_summary_image` is
awaited on the caller's path; a failure is logged through `tracing::error`
and otherwise swallowed.  `renderErr` is the injected outcome of the
renderer. -/
def renderStep (renderErr : Option String) : List Ev :=
  Ev.render :: (match renderErr with
    | some e => [Ev.logError ("summary image failed: " ++ e)]
    | none => [])

/-- Full `refresh_cache`: the core pipeline, and on the success path the
awaited render step appended to the caller's synchronous trace before the
`RefreshResult` is returned. -/
def refresh_cache (envv : String → Option String) (o : Oracles) (renderErr : Option String)
    (db : DbState) : Except ApiError RefreshResult × DbState × List Ev :=
  match refresh_core envv o db with
  | (.ok r, db', tr) => (.ok r, db', tr ++ renderStep renderErr)
  | (.error e, db', tr) => (.error e, db', tr)

/-- Result classifiers mirroring the `ApiError` variants that matter to
the claims. -/
def isExternalErr : Except ApiError RefreshResult → Bool
  | .error (.external _) => true
  | _ => false

/-- Whether the result is the storage-failure (`ApiError::Internal`)
condition. -/
def isInternalErr : Except ApiError RefreshResult → Bool
  | .error (.internal _) => true
  | _ => false

/-- The distinct natural keys of a catalog: trimmed names deduplicated
case-insensitively, in first-occurrence order. -/
def distinctKeys (cs : List RcCountry) : List String :=
  cs.foldl (fun acc c =>
    if acc.any (fun k => keyMatches k (strTrim c.name)) then acc
    else acc ++ [strTrim c.name]) []

/-! ### Concrete scenario inputs

Concrete catalogs and oracle assignments used to instantiate the claim
theorems.  The catalogs used inside kernel-evaluated facts carry no
currency list, so the estimation takes its deterministic
`(None, Some(0.0))` branch and no rational multiplication has to be
normalized by the kernel. -/

/-- The empty ambient environment: every variable unset, so every
endpoint falls back to its hardcoded default. -/
def envEmpty : String → Option String := fun _ => none

/-- A two-country catalog fixture (no currency lists). -/
def catW : List RcCountry :=
  [⟨"Nigeria", some "Abuja", some "Africa", some 206139589, some "https://flagcdn.com/ng.svg",
    none⟩,
   ⟨"Ghana", some "Accra", some "Africa", some 31072940, some "https://flagcdn.com/gh.svg",
    none⟩]

/-- A fully successful run: both fetches answer with the fixture payloads
regardless of URL, every database operation succeeds, the generator
always returns 1500, the database clock ticks `0, 1, 2, ...` one per
upsert statement, and the application clock reads 7. -/
def okOracle : Oracles where
  fetchCountries := fun _ => .ok catW
  fetchRates := fun _ => .ok ⟨[]⟩
  beginErr := none
  upsertErr := fun _ => none
  metaErr := none
  commitErr := none
  mults := fun _ => 1500
  dbNow := fun i => i
  appNow := 7

/-- The empty store. -/
def db0 : DbState := ⟨[], []⟩

/-- The data-model invariants the spec states for a written entity row:
non-negative population, strictly positive exchange rate when present,
non-negative estimated GDP when present. -/
def goodRow (row : CountryRow) : Prop :=
  0 ≤ row.population ∧ (∀ x, row.exchange_rate = some x → 0 < x) ∧
  (∀ g, row.estimated_gdp = some g → 0 ≤ g)

/-- A run whose entity-catalog fetch fails at the network stage. -/
def oFetchFail : Oracles :=
  { okOracle with fetchCountries := fun _ => .sendErr "connection refused" }

/-- A run whose commit fails. -/
def oCommitFail : Oracles :=
  { okOracle with commitErr := some "Lost connection to MySQL server during query" }

/-- A catalog carrying the same natural key twice (with different
capitals, so the second upsert genuinely modifies the row). -/
def catDup : List RcCountry :=
  [⟨"Nigeria", some "Abuja", some "Africa", some 5, none, none⟩,
   ⟨"Nigeria", some "Lagos", some "Africa", some 5, none, none⟩]

/-- A run fetching the duplicate-key catalog. -/
def oDup : Oracles := { okOracle with fetchCountries := fun _ => .ok catDup }

/-- An adversarial catalog whose single record carries a negative
population. -/
def catNeg : List RcCountry := [⟨"Atlantis", none, none, some (-5), none, none⟩]

/-- A run fetching the negative-population catalog. -/
def oNeg : Oracles := { okOracle with fetchCountries := fun _ => .ok catNeg }

/-- An ambient environment that overrides `COUNTRIES_URL`. -/
def envMock : String → Option String :=
  fun k => if k == "COUNTRIES_URL" then some "http://mock.local/countries" else none

/-- An external world that answers only on the mock countries URL: the
fetch result depends on which URL the refresh asks for. -/
def oUrlSensitive : Oracles :=
  { okOracle with
    fetchCountries := fun url =>
      if url == "http://mock.local/countries" then .ok [] else .sendErr "dns error" }

/-- An ambient environment that sets only an endpoint-irrelevant
variable. -/
def envPort : String → Option String :=
  fun k => if k == "PORT" then some "9090" else none

/-! ### Helper lemmas about the store primitives -/

theorem keyMatches_iff {a b : String} : keyMatches a b = true ↔ strLower a = strLower b := by
  simp [keyMatches]

theorem keyMatches_refl (a : String) : keyMatches a a = true := by
  simp [keyMatches]

theorem keyMatches_symm {a b : String} (h : keyMatches a b = true) : keyMatches b a = true := by
  rw [keyMatches_iff] at h ⊢
  exact h.symm

theorem keyMatches_trans {a b c : String} (h1 : keyMatches a b = true)
    (h2 : keyMatches b c = true) : keyMatches a c = true := by
  rw [keyMatches_iff] at h1 h2 ⊢
  exact h1.trans h2

theorem metaGet_replaceMeta (m : List (String × String)) (k v : String) :
    metaGet (replaceMeta m k v) k = some v := by
  induction m with
  | nil => simp [replaceMeta, metaGet]
  | cons kv rest ih =>
    obtain ⟨k', v'⟩ := kv
    by_cases h : (k' == k) = true
    · simp [replaceMeta, metaGet, h]
    · simp only [replaceMeta, metaGet, h, Bool.false_eq_true, if_false]
      exact ih

theorem upsertList_fresh (r : CountryRow) :
    ∀ rows : List CountryRow, (∀ row ∈ rows, keyMatches row.name r.name = false) →
      upsertList rows r = (rows ++ [r], 1) := by
  intro rows
  induction rows with
  | nil => intro _; simp [upsertList]
  | cons old rest ih =>
    intro h
    have hold : keyMatches old.name r.name = false := h old (List.mem_cons_self _ _)
    have hrest := ih fun row hrow => h row (List.mem_cons_of_mem _ hrow)
    simp [upsertList, hold, hrest]

theorem upsertList_sub (r : CountryRow) :
    ∀ (rows : List CountryRow) (row' : CountryRow), row' ∈ (upsertList rows r).1 →
      row' ∈ rows ∨
      (row'.population = r.population ∧ row'.exchange_rate = r.exchange_rate ∧
       row'.estimated_gdp = r.estimated_gdp ∧ row'.last_refreshed_at = r.last_refreshed_at ∧
       keyMatches row'.name r.name = true) := by
  intro rows
  induction rows with
  | nil =>
    intro row' h
    simp only [upsertList, List.mem_singleton] at h
    subst h
    exact Or.inr ⟨rfl, rfl, rfl, rfl, keyMatches_refl _⟩
  | cons old rest ih =>
    intro row' h
    by_cases hk : keyMatches old.name r.name = true
    · by_cases hm : ({ r with name := old.name } : CountryRow) = old
      · simp only [upsertList, hk, if_true, hm] at h
        exact Or.inl h
      · simp only [upsertList, hk, if_true, hm, if_false, List.mem_cons] at h
        rcases h with h | h
        · subst h
          exact Or.inr ⟨rfl, rfl, rfl, rfl, hk⟩
        · exact Or.inl (List.mem_cons_of_mem _ h)
    · simp only [upsertList, hk, Bool.false_eq_true, if_false, List.mem_cons] at h
      rcases h with h | h
      · exact Or.inl (h ▸ List.mem_cons_self _ _)
      · rcases ih row' h with h' | h'
        · exact Or.inl (List.mem_cons_of_mem _ h')
        · exact Or.inr h'

theorem upsertList_match (r : CountryRow) :
    ∀ rows : List CountryRow,
      (∃ row ∈ rows, keyMatches row.name r.name = true) →
      (∀ row ∈ rows, keyMatches row.name r.name = true →
        row.last_refreshed_at ≠ r.last_refreshed_at) →
      (upsertList rows r).2 = 2 ∧
      (upsertList rows r).1.map (fun x => x.name) = rows.map (fun x => x.name) := by
  intro rows
  induction rows with
  | nil => rintro ⟨row, hmem, _⟩ _; exact absurd hmem (List.not_mem_nil _)
  | cons old rest ih =>
    rintro ⟨row, hmem, hrow⟩ hts
    by_cases hk : keyMatches old.name r.name = true
    · have hne : ({ r with name := old.name } : CountryRow) ≠ old := by
        intro heq
        have : old.last_refreshed_at = r.last_refreshed_at := by
          rw [← heq]
        exact hts old (List.mem_cons_self _ _) hk this
      simp [upsertList, hk, hne]
    · have hmem' : row ∈ rest := by
        rcases List.mem_cons.1 hmem with h | h
        · exact absurd (h ▸ hrow) (by simp [hk])
        · exact h
      have hrec := ih ⟨row, hmem', hrow⟩
        (fun row'' hmem'' => hts row'' (List.mem_cons_of_mem _ hmem''))
      simp [upsertList, hk, hrec.1, hrec.2]

/-! ### Helper lemmas about the upsert loop -/

theorem normalizeRow_name (o : Oracles) (rr : ErRates) (i : Nat) (c : RcCountry) :
    (normalizeRow o rr i c).name = strTrim c.name := rfl

theorem normalizeRow_ts (o : Oracles) (rr : ErRates) (i : Nat) (c : RcCountry) :
    (normalizeRow o rr i c).last_refreshed_at = o.dbNow i := rfl

theorem runUpserts_err_internal (o : Oracles) (rr : ErRates) :
    ∀ (cs : List RcCountry) (i : Nat) (rows : List CountryRow) (a b : Nat) (e : ApiError),
      runUpserts o rr cs i rows a b = .error e → ∃ m, e = ApiError.internal m := by
  intro cs
  induction cs with
  | nil => intro i rows a b e h; simp [runUpserts] at h
  | cons c rest ih =>
    intro i rows a b e h
    cases hup : o.upsertErr i with
    | some msg =>
      simp only [runUpserts, hup] at h
      exact ⟨_, (Except.error.inj h).symm⟩
    | none =>
      simp only [runUpserts, hup] at h
      by_cases h1 : (upsertList rows (normalizeRow o rr i c)).2 = 1
      · rw [if_pos h1] at h; exact ih _ _ _ _ _ h
      · rw [if_neg h1] at h
        by_cases h2 : (upsertList rows (normalizeRow o rr i c)).2 = 2
        · rw [if_pos h2] at h; exact ih _ _ _ _ _ h
        · rw [if_neg h2] at h; exact ih _ _ _ _ _ h

theorem runUpserts_ok_upsertErr (o : Oracles) (rr : ErRates) :
    ∀ (cs : List RcCountry) (i : Nat) (rows : List CountryRow) (a b : Nat)
      (out : List CountryRow × Nat × Nat),
      runUpserts o rr cs i rows a b = .ok out →
      ∀ j, i ≤ j → j < i + cs.length → o.upsertErr j = none := by
  intro cs
  induction cs with
  | nil =>
    intro i rows a b out _ j hij hlt
    simp only [List.length_nil, Nat.add_zero] at hlt
    omega
  | cons c rest ih =>
    intro i rows a b out h j hij hlt
    cases hup : o.upsertErr i with
    | some msg => simp [runUpserts, hup] at h
    | none =>
      rcases Nat.eq_or_lt_of_le hij with rfl | hlt'
      · exact hup
      · simp only [runUpserts, hup] at h
        by_cases h1 : (upsertList rows (normalizeRow o rr i c)).2 = 1
        · rw [if_pos h1] at h
          exact ih _ _ _ _ _ h j hlt' (by simpa [Nat.add_comm, Nat.add_left_comm] using hlt)
        · rw [if_neg h1] at h
          by_cases h2 : (upsertList rows (normalizeRow o rr i c)).2 = 2
          · rw [if_pos h2] at h
            exact ih _ _ _ _ _ h j hlt' (by simpa [Nat.add_comm, Nat.add_left_comm] using hlt)
          · rw [if_neg h2] at h
            exact ih _ _ _ _ _ h j hlt' (by simpa [Nat.add_comm, Nat.add_left_comm] using hlt)

theorem runUpserts_all_inserts (o : Oracles) (rr : ErRates) :
    ∀ (cs : List RcCountry) (i : Nat) (rows : List CountryRow) (a b : Nat)
      (rows' : List CountryRow) (a' b' : Nat),
      runUpserts o rr cs i rows a b = .ok (rows', a', b') →
      (∀ c ∈ cs, ∀ row ∈ rows, keyMatches row.name (strTrim c.name) = false) →
      List.Pairwise (fun c c' => keyMatches (strTrim c.name) (strTrim c'.name) = false) cs →
      a' = a + cs.length ∧ b' = b := by
  intro cs
  induction cs with
  | nil =>
    intro i rows a b rows' a' b' h _ _
    simp only [runUpserts, Except.ok.injEq, Prod.mk.injEq] at h
    simp only [List.length_nil, Nat.add_zero]
    exact ⟨h.2.1.symm, h.2.2.symm⟩
  | cons c rest ih =>
    intro i rows a b rows' a' b' h hfresh hdist
    cases hup : o.upsertErr i with
    | some msg => simp [runUpserts, hup] at h
    | none =>
      have hup1 : upsertList rows (normalizeRow o rr i c) = (rows ++ [normalizeRow o rr i c], 1) :=
        upsertList_fresh _ rows (by
          intro row hrow
          have := hfresh c (List.mem_cons_self _ _) row hrow
          simpa [normalizeRow_name] using this)
      simp only [runUpserts, hup, hup1, if_true] at h
      have hrec := ih (i + 1) _ (a + 1) b rows' a' b' h
        (by
          intro c' hc' row hrow
          rcases List.mem_append.1 hrow with hrow | hrow
          · exact hfresh c' (List.mem_cons_of_mem _ hc') row hrow
          · have hrow' : row = normalizeRow o rr i c := List.mem_singleton.1 hrow
            subst hrow'
            rw [normalizeRow_name]
            exact (List.pairwise_cons.1 hdist).1 c' hc')
        (List.pairwise_cons.1 hdist).2
      refine ⟨?_, hrec.2⟩
      rw [hrec.1]
      simp [Nat.add_comm, Nat.add_left_comm]

theorem keyPresent_of_namesEq (rows1 rows2 : List CountryRow) (k : String)
    (h : rows2.map (fun x => x.name) = rows1.map (fun x => x.name)) :
    (∃ row ∈ rows1, keyMatches row.name k = true) →
    ∃ row ∈ rows2, keyMatches row.name k = true := by
  rintro ⟨row, hmem, hk⟩
  have : row.name ∈ rows2.map (fun x => x.name) := by
    rw [h]
    exact List.mem_map.2 ⟨row, hmem, rfl⟩
  rcases List.mem_map.1 this with ⟨row2, hmem2, hname⟩
  exact ⟨row2, hmem2, hname ▸ hk⟩

theorem runUpserts_all_updates (o : Oracles) (rr : ErRates) :
    ∀ (cs : List RcCountry) (i : Nat) (rows : List CountryRow) (a b : Nat)
      (rows' : List CountryRow) (a' b' : Nat),
      runUpserts o rr cs i rows a b = .ok (rows', a', b') →
      (∀ c ∈ cs, ∃ row ∈ rows, keyMatches row.name (strTrim c.name) = true) →
      List.Pairwise (fun c c' => keyMatches (strTrim c.name) (strTrim c'.name) = false) cs →
      (∀ j, i ≤ j → j < i + cs.length → ∀ row ∈ rows,
        (∃ c ∈ cs, keyMatches row.name (strTrim c.name) = true) →
        o.dbNow j ≠ row.last_refreshed_at) →
      a' = a ∧ b' = b + cs.length := by
  intro cs
  induction cs with
  | nil =>
    intro i rows a b rows' a' b' h _ _ _
    simp only [runUpserts, Except.ok.injEq, Prod.mk.injEq] at h
    simp only [List.length_nil, Nat.add_zero]
    exact ⟨h.2.1.symm, h.2.2.symm⟩
  | cons c rest ih =>
    intro i rows a b rows' a' b' h hpres hdist hfresh
    cases hup : o.upsertErr i with
    | some msg => simp [runUpserts, hup] at h
    | none =>
      have hmatch : ∃ row ∈ rows, keyMatches row.name (normalizeRow o rr i c).name = true := by
        rw [normalizeRow_name]
        exact hpres c (List.mem_cons_self _ _)
      have hts : ∀ row ∈ rows, keyMatches row.name (normalizeRow o rr i c).name = true →
          row.last_refreshed_at ≠ (normalizeRow o rr i c).last_refreshed_at := by
        intro row hrow hk
        rw [normalizeRow_name] at hk
        rw [normalizeRow_ts]
        exact fun hEq => hfresh i le_rfl (by simp) row hrow
          ⟨c, List.mem_cons_self _ _, hk⟩ hEq.symm
      obtain ⟨hn2, hnames⟩ := upsertList_match (normalizeRow o rr i c) rows hmatch hts
      simp only [runUpserts, hup, hn2] at h
      norm_num at h
      have hrec := ih (i + 1) _ a (b + 1) rows' a' b' h
        (fun c' hc' => keyPresent_of_namesEq rows _ _ hnames
          (hpres c' (List.mem_cons_of_mem _ hc')))
        (List.pairwise_cons.1 hdist).2
        (by
          intro j hj hjlt row hrow hkey
          rcases upsertList_sub (normalizeRow o rr i c) rows row hrow with hrow' | hrow'
          · exact hfresh j (Nat.le_of_succ_le hj)
              (by simpa [Nat.add_comm, Nat.add_left_comm] using hjlt) row hrow'
              (by
                rcases hkey with ⟨c', hc', hk⟩
                exact ⟨c', List.mem_cons_of_mem _ hc', hk⟩)
          · rcases hkey with ⟨c', hc', hk⟩
            obtain ⟨-, -, -, -, hkr⟩ := hrow'
            rw [normalizeRow_name] at hkr
            have : keyMatches (strTrim c.name) (strTrim c'.name) = true :=
              keyMatches_trans (keyMatches_symm hkr) hk
            have hfk := (List.pairwise_cons.1 hdist).1 c' hc'
            rw [hfk] at this
            exact absurd this (by simp))
      refine ⟨hrec.1, ?_⟩
      rw [hrec.2]
      simp [Nat.add_comm, Nat.add_left_comm]

theorem runUpserts_rows_pred (o : Oracles) (rr : ErRates) (base : List CountryRow)
    (P : CountryRow → Prop)
    (hP : ∀ r1 r2 : CountryRow, r1.population = r2.population →
      r1.exchange_rate = r2.exchange_rate → r1.estimated_gdp = r2.estimated_gdp →
      r1.last_refreshed_at = r2.last_refreshed_at → P r2 → P r1) :
    ∀ (cs : List RcCountry) (i : Nat) (rows : List CountryRow) (a b : Nat)
      (rows' : List CountryRow) (a' b' : Nat),
      runUpserts o rr cs i rows a b = .ok (rows', a', b') →
      (∀ j c, i ≤ j → j < i + cs.length → c ∈ cs → P (normalizeRow o rr j c)) →
      (∀ row ∈ rows, row ∈ base ∨ P row) →
      ∀ row ∈ rows', row ∈ base ∨ P row := by
  intro cs
  induction cs with
  | nil =>
    intro i rows a b rows' a' b' h _ hrows
    simp only [runUpserts, Except.ok.injEq, Prod.mk.injEq] at h
    exact h.1 ▸ hrows
  | cons c rest ih =>
    intro i rows a b rows' a' b' h hnorm hrows
    cases hup : o.upsertErr i with
    | some msg => simp [runUpserts, hup] at h
    | none =>
      have hstep : ∀ row ∈ (upsertList rows (normalizeRow o rr i c)).1, row ∈ base ∨ P row := by
        intro row hrow
        rcases upsertList_sub (normalizeRow o rr i c) rows row hrow with hrow' | hrow'
        · exact hrows row hrow'
        · obtain ⟨hp, he, hg, ht, -⟩ := hrow'
          exact Or.inr (hP row (normalizeRow o rr i c) hp he hg ht
            (hnorm i c le_rfl (by simp) (List.mem_cons_self _ _)))
      have hnorm' : ∀ j c', i + 1 ≤ j → j < i + 1 + rest.length → c' ∈ rest →
          P (normalizeRow o rr j c') := by
        intro j c' hj hjlt hc'
        exact hnorm j c' (Nat.le_of_succ_le hj)
          (by simpa [Nat.add_comm, Nat.add_left_comm] using hjlt)
          (List.mem_cons_of_mem _ hc')
      simp only [runUpserts, hup] at h
      by_cases h1 : (upsertList rows (normalizeRow o rr i c)).2 = 1
      · rw [if_pos h1] at h
        exact ih _ _ _ _ _ _ _ h hnorm' hstep
      · rw [if_neg h1] at h
        by_cases h2 : (upsertList rows (normalizeRow o rr i c)).2 = 2
        · rw [if_pos h2] at h
          exact ih _ _ _ _ _ _ _ h hnorm' hstep
        · rw [if_neg h2] at h
          exact ih _ _ _ _ _ _ _ h hnorm' hstep

theorem goodRow_normalizeRow (o : Oracles) (rr : ErRates) (j : Nat) (c : RcCountry)
    (hp : 0 ≤ c.population.getD 0) (hm : 1000 ≤ o.mults j ∧ o.mults j ≤ 2000) :
    goodRow (normalizeRow o rr j c) := by
  unfold goodRow normalizeRow
  cases hcc : ((c.currencies.bind List.head?).bind RcCurrency.code).map strTrim with
  | none =>
    refine ⟨hp, ?_, ?_⟩
    · intro x hx
      simp [estimate, hcc] at hx
    · intro g hg
      simp [estimate, hcc] at hg
      simp [← hg]
  | some code =>
    cases hrg : ratesGet rr.rates code with
    | none =>
      refine ⟨hp, ?_, ?_⟩
      · intro x hx
        simp [estimate, hcc, hrg] at hx
      · intro g hg
        simp [estimate, hcc, hrg] at hg
    | some rate =>
      by_cases hpos : 0 < rate
      · refine ⟨hp, ?_, ?_⟩
        · intro x hx
          simp [estimate, hcc, hrg, hpos] at hx
          exact hx ▸ hpos
        · intro g hg
          simp [estimate, hcc, hrg, hpos] at hg
          rw [← hg]
          apply div_nonneg _ hpos.le
          apply mul_nonneg _ (le_trans (by norm_num) hm.1)
          exact_mod_cast hp
      · refine ⟨hp, ?_, ?_⟩
        · intro x hx
          simp [estimate, hcc, hrg, hpos] at hx
        · intro g hg
          simp [estimate, hcc, hrg, hpos] at hg

/-! ### Inversion lemmas for the pipeline -/

theorem refresh_core_error_db (envv : String → Option String) (o : Oracles) (db : DbState)
    (e : ApiError) (db' : DbState) (tr : List Ev)
    (h : refresh_core envv o db = (.error e, db', tr)) : db' = db := by
  unfold refresh_core at h
  split at h
  · simp only [Prod.mk.injEq] at h
    exact h.2.1.symm
  · simp only [Prod.mk.injEq] at h
    exact h.2.1.symm
  · split at h
    · simp only [Prod.mk.injEq] at h
      exact h.2.1.symm
    · simp only [Prod.mk.injEq] at h
      exact h.2.1.symm
    · split at h
      · simp only [Prod.mk.injEq] at h
        exact h.2.1.symm
      · split at h
        · simp only [Prod.mk.injEq] at h
          exact h.2.1.symm
        · split at h
          · simp only [Prod.mk.injEq] at h
            exact h.2.1.symm
          · split at h
            · simp only [Prod.mk.injEq] at h
              exact h.2.1.symm
            · simp at h

theorem refresh_cache_error_db (envv : String → Option String) (o : Oracles)
    (re : Option String) (db : DbState) (e : ApiError)
    (h : (refresh_cache envv o re db).1 = .error e) :
    (refresh_cache envv o re db).2.1 = db := by
  rcases hcore : refresh_core envv o db with ⟨res, db', tr⟩
  cases res with
  | ok r =>
    simp only [refresh_cache, hcore] at h
    simp at h
  | error e' =>
    simp only [refresh_cache, hcore]
    exact refresh_core_error_db envv o db e' db' tr hcore

theorem refresh_cache_ok_inv (envv : String → Option String) (o : Oracles)
    (re : Option String) (db : DbState) (r : RefreshResult)
    (h : (refresh_cache envv o re db).1 = .ok r) :
    ∃ cs rates_resp rows,
      o.fetchCountries (countriesUrl envv) = .ok cs ∧
      o.fetchRates (ratesUrl envv) = .ok rates_resp ∧
      o.beginErr = none ∧ o.metaErr = none ∧ o.commitErr = none ∧
      runUpserts o rates_resp cs 0 db.countries 0 0 = .ok (rows, r.inserted, r.updated) ∧
      r.last_refreshed_at = toString o.appNow ∧
      (refresh_cache envv o re db).2.1 =
        ⟨rows, replaceMeta db.app_meta "last_refreshed_at" (toString o.appNow)⟩ ∧
      (refresh_cache envv o re db).2.2 =
        [Ev.httpGet (countriesUrl envv), Ev.httpGet (ratesUrl envv), Ev.txBegin,
         Ev.txMeta (toString o.appNow), Ev.txCommit] ++ renderStep re := by
  cases hfc : o.fetchCountries (countriesUrl envv) with
  | sendErr e => simp [refresh_cache, refresh_core, hfc] at h
  | parseErr e => simp [refresh_cache, refresh_core, hfc] at h
  | ok cs =>
    cases hfr : o.fetchRates (ratesUrl envv) with
    | sendErr e => simp [refresh_cache, refresh_core, hfc, hfr] at h
    | parseErr e => simp [refresh_cache, refresh_core, hfc, hfr] at h
    | ok rates_resp =>
      cases hb : o.beginErr with
      | some e => simp [refresh_cache, refresh_core, hfc, hfr, hb] at h
      | none =>
        cases hru : runUpserts o rates_resp cs 0 db.countries 0 0 with
        | error e => simp [refresh_cache, refresh_core, hfc, hfr, hb, hru] at h
        | ok out =>
          obtain ⟨rows, ins, upd⟩ := out
          cases hme : o.metaErr with
          | some e => simp [refresh_cache, refresh_core, hfc, hfr, hb, hru, hme] at h
          | none =>
            cases hcm : o.commitErr with
            | some e => simp [refresh_cache, refresh_core, hfc, hfr, hb, hru, hme, hcm] at h
            | none =>
              have hr : r = ⟨ins, upd, toString o.appNow⟩ := by
                simp [refresh_cache, refresh_core, hfc, hfr, hb, hru, hme, hcm] at h
                exact h.symm
              subst hr
              refine ⟨cs, rates_resp, rows, rfl, rfl, rfl, rfl, rfl, hru, rfl, ?_, ?_⟩
              · simp [refresh_cache, refresh_core, hfc, hfr, hb, hru, hme, hcm]
              · simp [refresh_cache, refresh_core, hfc, hfr, hb, hru, hme, hcm]

/-! ### Claim theorems -/

/-- C1: for every refresh in which either external fetch fails (network
error, non-success status, or unparseable payload), the operation reports
the external-unavailable condition, the cache store is completely
unmodified, and no store operation — in particular no transaction open —
ever appears on the run's event trace. -/
theorem C1_external_failure_leaves_store_untouched
    (envv : String → Option String) (o : Oracles) (re : Option String) (db : DbState)
    (h : (o.fetchCountries (countriesUrl envv)).isOk = false ∨
         (o.fetchRates (ratesUrl envv)).isOk = false) :
    isExternalErr (refresh_cache envv o re db).1 = true ∧
    (refresh_cache envv o re db).2.1 = db ∧
    ∀ ev ∈ (refresh_cache envv o re db).2.2, isDbEvent ev = false := by
  cases hfc : o.fetchCountries (countriesUrl envv) with
  | sendErr e =>
    refine ⟨?_, ?_, ?_⟩ <;> simp [refresh_cache, refresh_core, hfc, isExternalErr, isDbEvent]
  | parseErr e =>
    refine ⟨?_, ?_, ?_⟩ <;> simp [refresh_cache, refresh_core, hfc, isExternalErr, isDbEvent]
  | ok cs =>
    have hrf : (o.fetchRates (ratesUrl envv)).isOk = false := by
      rcases h with h | h
      · rw [hfc] at h
        simp [FetchOutcome.isOk] at h
      · exact h
    cases hfr : o.fetchRates (ratesUrl envv) with
    | sendErr e =>
      refine ⟨?_, ?_, ?_⟩ <;>
        simp [refresh_cache, refresh_core, hfc, hfr, isExternalErr, isDbEvent]
    | parseErr e =>
      refine ⟨?_, ?_, ?_⟩ <;>
        simp [refresh_cache, refresh_core, hfc, hfr, isExternalErr, isDbEvent]
    | ok rr =>
      rw [hfr] at hrf
      simp [FetchOutcome.isOk] at hrf

/-- Witness for C1: a concrete run whose countries fetch dies on the
network reports `ApiError::External` and leaves the empty store empty,
with no database event on its trace. -/
theorem C1_witness :
    isExternalErr (refresh_cache envEmpty oFetchFail none db0).1 = true ∧
    (refresh_cache envEmpty oFetchFail none db0).2.1 = db0 ∧
    ∀ ev ∈ (refresh_cache envEmpty oFetchFail none db0).2.2, isDbEvent ev = false :=
  C1_external_failure_leaves_store_untouched envEmpty oFetchFail none db0 (Or.inl (by decide))

/-- C2: for every refresh in which any write inside the transaction (an
upsert that actually executes, the provenance write) or the commit itself
fails, the whole unit of work rolls back — the store equals its
pre-refresh state — and the operation reports the storage-failure
(`ApiError::Internal`) condition. -/
theorem C2_transaction_failure_rolls_back
    (envv : String → Option String) (o : Oracles) (re : Option String) (db : DbState)
    (cs : List RcCountry) (rates_resp : ErRates)
    (hc : o.fetchCountries (countriesUrl envv) = .ok cs)
    (hr : o.fetchRates (ratesUrl envv) = .ok rates_resp)
    (hb : o.beginErr = none)
    (hfail : (∃ i, i < cs.length ∧ o.upsertErr i ≠ none) ∨
             o.metaErr ≠ none ∨ o.commitErr ≠ none) :
    isInternalErr (refresh_cache envv o re db).1 = true ∧
    (refresh_cache envv o re db).2.1 = db := by
  cases hru : runUpserts o rates_resp cs 0 db.countries 0 0 with
  | error e =>
    obtain ⟨m, hm⟩ := runUpserts_err_internal o rates_resp cs 0 db.countries 0 0 e hru
    subst hm
    constructor
    · simp [refresh_cache, refresh_core, hc, hr, hb, hru, isInternalErr]
    · simp [refresh_cache, refresh_core, hc, hr, hb, hru]
  | ok out =>
    have hnone : ∀ j, j < cs.length → o.upsertErr j = none := fun j hj =>
      runUpserts_ok_upsertErr o rates_resp cs 0 db.countries 0 0 out hru j (Nat.zero_le _)
        (by simpa using hj)
    obtain ⟨rows, ins, upd⟩ := out
    cases hme : o.metaErr with
    | some e =>
      constructor
      · simp [refresh_cache, refresh_core, hc, hr, hb, hru, hme, isInternalErr]
      · simp [refresh_cache, refresh_core, hc, hr, hb, hru, hme]
    | none =>
      cases hcm : o.commitErr with
      | some e =>
        constructor
        · simp [refresh_cache, refresh_core, hc, hr, hb, hru, hme, hcm, isInternalErr]
        · simp [refresh_cache, refresh_core, hc, hr, hb, hru, hme, hcm]
      | none =>
        rcases hfail with ⟨i, hi, hne⟩ | hf | hf
        · exact absurd (hnone i hi) hne
        · exact absurd hme hf
        · exact absurd hcm hf

/-- Witness for C2: a concrete run whose commit fails reports the
internal condition and leaves the empty store empty. -/
theorem C2_witness :
    isInternalErr (refresh_cache envEmpty oCommitFail none db0).1 = true ∧
    (refresh_cache envEmpty oCommitFail none db0).2.1 = db0 :=
  C2_transaction_failure_rolls_back envEmpty oCommitFail none db0 catW ⟨[]⟩ rfl rfl rfl
    (Or.inr (Or.inr (by simp [oCommitFail, okOracle])))

/-- C7: for every refresh whose transaction commits, the renderer's
outcome changes neither the returned result nor the final store: two runs
differing only in the injected render outcome agree on both (the
difference is confined to the logged trace). -/
theorem C7_render_failure_is_swallowed
    (envv : String → Option String) (o : Oracles) (re re' : Option String) (db : DbState) :
    (refresh_cache envv o re db).1 = (refresh_cache envv o re' db).1 ∧
    (refresh_cache envv o re db).2.1 = (refresh_cache envv o re' db).2.1 := by
  rcases hcore : refresh_core envv o db with ⟨res, db', tr⟩
  cases res <;> simp [refresh_cache, hcore]

/-- C10: for every successful refresh, the `last_refreshed_at` string of
the returned `RefreshResult` is exactly the value stored under the
`app_meta` key `last_refreshed_at` by that same refresh. -/
theorem C10_result_matches_provenance
    (envv : String → Option String) (o : Oracles) (re : Option String) (db : DbState)
    (r : RefreshResult)
    (h : (refresh_cache envv o re db).1 = .ok r) :
    metaGet (refresh_cache envv o re db).2.1.app_meta "last_refreshed_at" =
      some r.last_refreshed_at := by
  obtain ⟨cs, rr, rows, -, -, -, -, -, -, hts, hdb, -⟩ := refresh_cache_ok_inv envv o re db r h
  rw [hdb, hts]
  exact metaGet_replaceMeta _ _ _

/-- Witness for C10: the concrete successful run returns "7" and stores
"7" in the provenance record. -/
theorem C10_witness :
    metaGet (refresh_cache envEmpty okOracle none db0).2.1.app_meta "last_refreshed_at" =
      some (RefreshResult.last_refreshed_at ⟨2, 0, "7"⟩) :=
  C10_result_matches_provenance envEmpty okOracle none db0 ⟨2, 0, "7"⟩ (by decide)

/-- C5: the Estimation Function, on any population `p ≥ 0` (its
spec-level domain), optional currency code and rate table, and any
multiplier the generator can draw (`1000 ≤ m ≤ 2000`): absent code gives
`(None, Some 0)`; unknown code or non-positive rate gives `(None, None)`;
a strictly positive rate gives `(Some rate, Some (p * m / rate))`, which
lies inside `[p*1000/rate, p*2000/rate]` inclusive. -/
theorem C5_estimate_policy (p : Int) (c : Option String) (R : ErRates) (m : ℚ)
    (hp : 0 ≤ p) (hm1 : 1000 ≤ m) (hm2 : m ≤ 2000) :
    (c = none → estimate p c R m = (none, some 0)) ∧
    (∀ code, c = some code → ratesGet R.rates code = none →
      estimate p c R m = (none, none)) ∧
    (∀ code rate, c = some code → ratesGet R.rates code = some rate → ¬ 0 < rate →
      estimate p c R m = (none, none)) ∧
    (∀ code rate, c = some code → ratesGet R.rates code = some rate → 0 < rate →
      estimate p c R m = (some rate, some ((p : ℚ) * m / rate)) ∧
      (p : ℚ) * 1000 / rate ≤ (p : ℚ) * m / rate ∧
      (p : ℚ) * m / rate ≤ (p : ℚ) * 2000 / rate) := by
  have hpq : (0 : ℚ) ≤ (p : ℚ) := by exact_mod_cast hp
  refine ⟨?_, ?_, ?_, ?_⟩
  · rintro rfl
    rfl
  · rintro code rfl hnone
    simp [estimate, hnone]
  · rintro code rate rfl hsome hneg
    simp [estimate, hsome, hneg]
  · rintro code rate rfl hsome hpos
    refine ⟨by simp [estimate, hsome, hpos], ?_, ?_⟩
    · exact (div_le_div_iff_of_pos_right hpos).2 (mul_le_mul_of_nonneg_left hm1 hpq)
    · exact (div_le_div_iff_of_pos_right hpos).2 (mul_le_mul_of_nonneg_left hm2 hpq)

/-- Witness for C5: population 10, code "NGN", rate 2, multiplier 1500:
the function returns the rate and `10 * 1500 / 2`, inside the claimed
interval. -/
theorem C5_witness :
    estimate 10 (some "NGN") ⟨[("NGN", 2)]⟩ 1500 = (some 2, some ((10 : ℚ) * 1500 / 2)) ∧
    (10 : ℚ) * 1000 / 2 ≤ (10 : ℚ) * 1500 / 2 ∧
    (10 : ℚ) * 1500 / 2 ≤ (10 : ℚ) * 2000 / 2 := by
  have h := (C5_estimate_policy 10 (some "NGN") ⟨[("NGN", 2)]⟩ 1500 (by norm_num)
    (by norm_num) (by norm_num)).2.2.2 "NGN" 2 rfl (by rfl) (by norm_num)
  exact ⟨h.1, h.2.1, h.2.2⟩

/-- Counterexample to C3 as stated: in a concrete successful refresh of
two records (database clock ticking 0, 1 across the two upsert
statements, application clock reading 7), there is no single timestamp
that all entity rows and the provenance record share — the rows carry the
per-statement `NOW()` values 0 and 1 while the provenance record stores
the application-clock value "7". -/
theorem C3_counterexample :
    (refresh_cache envEmpty okOracle none db0).1 = .ok ⟨2, 0, "7"⟩ ∧
    ¬ ∃ t : Nat,
      (∀ row ∈ (refresh_cache envEmpty okOracle none db0).2.1.countries,
        row.last_refreshed_at = t) ∧
      metaGet (refresh_cache envEmpty okOracle none db0).2.1.app_meta "last_refreshed_at" =
        some (toString t) := by
  constructor
  · decide
  · rintro ⟨t, hall, -⟩
    have hmap : (refresh_cache envEmpty okOracle none db0).2.1.countries.map
        (fun row => row.last_refreshed_at) = [0, 1] := by decide
    have h0 : ∀ x ∈ [(0 : Nat), 1], x = t := by
      rw [← hmap]
      intro x hx
      rcases List.mem_map.1 hx with ⟨row, hrow, rfl⟩
      exact hall row hrow
    have h00 := h0 0 (by simp)
    have h11 := h0 1 (by simp)
    omega

/-- C3 amended: a successful refresh uses two clocks, not one shared
timestamp.  The provenance record and the returned `last_refreshed_at`
both carry the application clock value captured once (after the upserts,
before the provenance write), while every entity row the refresh touched
carries the database clock value `NOW()` of its own upsert statement. -/
theorem C3_amended_two_clocks
    (envv : String → Option String) (o : Oracles) (re : Option String) (db : DbState)
    (cs : List RcCountry) (r : RefreshResult)
    (hc : o.fetchCountries (countriesUrl envv) = .ok cs)
    (hok : (refresh_cache envv o re db).1 = .ok r) :
    r.last_refreshed_at = toString o.appNow ∧
    metaGet (refresh_cache envv o re db).2.1.app_meta "last_refreshed_at" =
      some (toString o.appNow) ∧
    ∀ row ∈ (refresh_cache envv o re db).2.1.countries,
      row ∈ db.countries ∨ ∃ i, i < cs.length ∧ row.last_refreshed_at = o.dbNow i := by
  obtain ⟨cs', rr, rows, hfc, -, -, -, -, hru, hts, hdb, -⟩ :=
    refresh_cache_ok_inv envv o re db r hok
  have hcs : cs' = cs := FetchOutcome.ok.inj (hfc.symm.trans hc)
  rw [hcs] at hru
  refine ⟨hts, ?_, ?_⟩
  · rw [hdb]
    exact metaGet_replaceMeta _ _ _
  · rw [hdb]
    intro row hrow
    exact runUpserts_rows_pred o rr db.countries
      (fun row => ∃ i, i < cs.length ∧ row.last_refreshed_at = o.dbNow i)
      (fun r1 r2 _ _ _ ht hP => by
        obtain ⟨i, hi, hts2⟩ := hP
        exact ⟨i, hi, ht ▸ hts2⟩)
      cs 0 db.countries 0 0 rows r.inserted r.updated hru
      (fun j c hj hjlt _ => ⟨j, by simpa using hjlt, rfl⟩)
      (fun row hrow => Or.inl hrow)
      row hrow

/-- Witness for C3's amended statement at the concrete successful run. -/
theorem C3_witness :
    RefreshResult.last_refreshed_at ⟨2, 0, "7"⟩ = toString okOracle.appNow ∧
    metaGet (refresh_cache envEmpty okOracle none db0).2.1.app_meta "last_refreshed_at" =
      some (toString okOracle.appNow) ∧
    ∀ row ∈ (refresh_cache envEmpty okOracle none db0).2.1.countries,
      row ∈ db0.countries ∨ ∃ i, i < catW.length ∧ row.last_refreshed_at = okOracle.dbNow i :=
  C3_amended_two_clocks envEmpty okOracle none db0 catW ⟨2, 0, "7"⟩ rfl (by decide)

/-- Counterexample to C4 as stated: a successful refresh of a catalog
that lists the same natural key twice (with different capitals) reports
`inserted = 1, updated = 1`, so `inserted + updated = 2` while the
catalog has exactly one distinct natural key. -/
theorem C4_counterexample :
    (refresh_cache envEmpty oDup none db0).1 = .ok ⟨1, 1, "7"⟩ ∧
    (distinctKeys catDup).length = 1 ∧
    ¬ (1 + 1 = (distinctKeys catDup).length) :=
  ⟨by decide, by decide, by decide⟩

/-- C4 amended: `inserted + updated` counts upsert statements whose
`rows_affected` was 1 or 2 — one statement per catalog record, not per
distinct key.  When the catalog's trimmed names are pairwise distinct
(case-insensitively): a refresh on an empty store reports
`inserted = N, updated = 0`; a refresh on a store already containing
every key, under a database clock that differs from every stored row
timestamp (so no update is a no-op), reports `inserted = 0,
updated = N`. -/
theorem C4_amended_counts
    (envv : String → Option String) (o : Oracles) (re : Option String) (db : DbState)
    (cs : List RcCountry) (rates_resp : ErRates) (r : RefreshResult)
    (hc : o.fetchCountries (countriesUrl envv) = .ok cs)
    (hr : o.fetchRates (ratesUrl envv) = .ok rates_resp)
    (hok : (refresh_cache envv o re db).1 = .ok r)
    (hdist : List.Pairwise
      (fun c c' => keyMatches (strTrim c.name) (strTrim c'.name) = false) cs) :
    (db.countries = [] → r.inserted = cs.length ∧ r.updated = 0) ∧
    ((∀ c ∈ cs, ∃ row ∈ db.countries, keyMatches row.name (strTrim c.name) = true) →
     (∀ i, i < cs.length → ∀ row ∈ db.countries, o.dbNow i ≠ row.last_refreshed_at) →
     r.inserted = 0 ∧ r.updated = cs.length) := by
  obtain ⟨cs', rr', rows, hfc, hfr, -, -, -, hru, -, -, -⟩ :=
    refresh_cache_ok_inv envv o re db r hok
  have hcs : cs' = cs := FetchOutcome.ok.inj (hfc.symm.trans hc)
  have hrr : rr' = rates_resp := FetchOutcome.ok.inj (hfr.symm.trans hr)
  rw [hcs, hrr] at hru
  constructor
  · intro hemp
    have h := runUpserts_all_inserts o rates_resp cs 0 db.countries 0 0 rows
      r.inserted r.updated hru
      (by
        rw [hemp]
        intro c _ row hrow
        exact absurd hrow (List.not_mem_nil _))
      hdist
    simpa using h
  · intro hpres hfresh
    have h := runUpserts_all_updates o rates_resp cs 0 db.countries 0 0 rows
      r.inserted r.updated hru hpres hdist
      (by
        intro j _ hjlt row hrow _
        exact hfresh j (by simpa using hjlt) row hrow)
    simpa using h

/-- Witness for C4's amended statement: the concrete two-record,
distinct-key catalog on the empty store reports two inserts and zero
updates. -/
theorem C4_witness :
    RefreshResult.inserted ⟨2, 0, "7"⟩ = catW.length ∧
    RefreshResult.updated ⟨2, 0, "7"⟩ = 0 :=
  (C4_amended_counts envEmpty okOracle none db0 catW ⟨[]⟩ ⟨2, 0, "7"⟩ rfl rfl (by decide)
    (by decide)).1 rfl

/-- Counterexample to C6 as stated: in a concrete successful refresh the
render step appears on the caller's own synchronous event trace (the
ordered sequence of steps the refresh call awaits before returning), so
the renderer is awaited by the success path rather than dispatched to a
separate execution context.  In the source, `build_summary_image(...)` is
`.await`ed inline in `refresh_cache` with no task spawn around it. -/
theorem C6_counterexample :
    (refresh_cache envEmpty okOracle none db0).1 = .ok ⟨2, 0, "7"⟩ ∧
    Ev.render ∈ (refresh_cache envEmpty okOracle none db0).2.2 :=
  ⟨by decide, by decide⟩

/-- C6 amended: the renderer is invoked only after the commit — every
successful refresh's synchronous trace is some prefix followed by the
commit immediately followed by the render step — but it runs on the
caller's own path (awaited before the result is returned), not on a
separate execution context. -/
theorem C6_amended_render_after_commit_but_awaited
    (envv : String → Option String) (o : Oracles) (re : Option String) (db : DbState)
    (r : RefreshResult)
    (h : (refresh_cache envv o re db).1 = .ok r) :
    ∃ pre post, (refresh_cache envv o re db).2.2 =
      pre ++ Ev.txCommit :: Ev.render :: post := by
  obtain ⟨cs, rr, rows, -, -, -, -, -, -, -, -, htr⟩ := refresh_cache_ok_inv envv o re db r h
  cases re with
  | none =>
    exact ⟨[Ev.httpGet (countriesUrl envv), Ev.httpGet (ratesUrl envv), Ev.txBegin,
      Ev.txMeta (toString o.appNow)], [], by rw [htr]; rfl⟩
  | some e =>
    exact ⟨[Ev.httpGet (countriesUrl envv), Ev.httpGet (ratesUrl envv), Ev.txBegin,
      Ev.txMeta (toString o.appNow)], [Ev.logError ("summary image failed: " ++ e)],
      by rw [htr]; rfl⟩

/-- Witness for C6's amended statement at the concrete successful run. -/
theorem C6_witness :
    ∃ pre post, (refresh_cache envEmpty okOracle none db0).2.2 =
      pre ++ Ev.txCommit :: Ev.render :: post :=
  C6_amended_render_after_commit_but_awaited envEmpty okOracle none db0 ⟨2, 0, "7"⟩
    (by decide)

/-- Counterexample to C8 as stated: an adversarial payload whose record
carries `population: -5` is written as-is — the refresh succeeds and the
stored row violates the non-negative-population invariant (the code only
defaults a missing population to 0, it never validates the value; with a
currency whose rate is positive the same record would also produce a
negative `estimated_gdp = population * multiplier / rate`). -/
theorem C8_counterexample :
    (refresh_cache envEmpty oNeg none db0).1 = .ok ⟨1, 0, "7"⟩ ∧
    ¬ ∀ row ∈ (refresh_cache envEmpty oNeg none db0).2.1.countries, 0 ≤ row.population :=
  ⟨by decide, by decide⟩

/-- C8 amended: provided every population the source supplies is
non-negative (and the multiplier is in the generator's range), every row
a refresh leaves in the store is either a pre-existing untouched row or
satisfies the data-model invariants: non-negative population, strictly
positive exchange rate when present, non-negative estimated GDP when
present.  Without the population proviso the invariant fails (see the
counterexample); the positive-exchange-rate part alone needs no
proviso. -/
theorem C8_amended_invariants
    (envv : String → Option String) (o : Oracles) (re : Option String) (db : DbState)
    (cs : List RcCountry)
    (hc : o.fetchCountries (countriesUrl envv) = .ok cs)
    (hpop : ∀ c ∈ cs, 0 ≤ c.population.getD 0)
    (hm : ∀ i, 1000 ≤ o.mults i ∧ o.mults i ≤ 2000) :
    ∀ row ∈ (refresh_cache envv o re db).2.1.countries,
      row ∈ db.countries ∨ goodRow row := by
  cases hres : (refresh_cache envv o re db).1 with
  | error e =>
    rw [refresh_cache_error_db envv o re db e hres]
    exact fun row hrow => Or.inl hrow
  | ok r =>
    obtain ⟨cs', rr, rows, hfc, -, -, -, -, hru, -, hdb, -⟩ :=
      refresh_cache_ok_inv envv o re db r hres
    have hcs : cs' = cs := FetchOutcome.ok.inj (hfc.symm.trans hc)
    rw [hcs] at hru
    rw [hdb]
    intro row hrow
    exact runUpserts_rows_pred o rr db.countries goodRow
      (fun r1 r2 hp he hg _ h2 => by
        obtain ⟨h2p, h2e, h2g⟩ := h2
        exact ⟨hp ▸ h2p, fun x hx => h2e x (he ▸ hx), fun g hg2 => h2g g (hg ▸ hg2)⟩)
      cs 0 db.countries 0 0 rows r.inserted r.updated hru
      (fun j c _ _ hcmem => goodRow_normalizeRow o rr j c (hpop c hcmem) (hm j))
      (fun row hrow => Or.inl hrow) row hrow

/-- Witness for C8's amended statement at the concrete successful run,
instantiated at the first row that run writes. -/
theorem C8_witness :
    (⟨"Nigeria", some "Abuja", some "Africa", 206139589, none, none, some 0,
      some "https://flagcdn.com/ng.svg", 0⟩ : CountryRow) ∈ db0.countries ∨
    goodRow ⟨"Nigeria", some "Abuja", some "Africa", 206139589, none, none, some 0,
      some "https://flagcdn.com/ng.svg", 0⟩ :=
  C8_amended_invariants envEmpty okOracle none db0 catW rfl (by decide)
    (fun _ => ⟨by norm_num [okOracle], by norm_num [okOracle]⟩) _ (by decide)

/-- Counterexample to C9 as stated: two refresh invocations given the
same external world (the same URL-to-response functions), the same store
and the same injected effects — differing only in the ambient process
environment (`COUNTRIES_URL` set vs unset) — produce different results,
because `refresh_cache` reads the endpoint URLs from `env::var` inside
the core logic rather than from the startup configuration object (which
carries no endpoint fields at all). -/
theorem C9_counterexample :
    (refresh_cache envEmpty oUrlSensitive none db0).1 ≠
      (refresh_cache envMock oUrlSensitive none db0).1 := by decide

/-- C9 amended: the core refresh logic does read ambient global state —
the three variables `COUNTRIES_URL`, `BASE_CURRENCY` and `RATES_URL`
(with hardcoded defaults); its behaviour is determined by exactly those
three ambient variables plus the injected effects, so two invocations
whose environments agree on them behave identically. -/
theorem C9_amended_env_dependence
    (envv envv' : String → Option String) (o : Oracles) (re : Option String) (db : DbState)
    (h1 : envv' "COUNTRIES_URL" = envv "COUNTRIES_URL")
    (h2 : envv' "BASE_CURRENCY" = envv "BASE_CURRENCY")
    (h3 : envv' "RATES_URL" = envv "RATES_URL") :
    refresh_cache envv' o re db = refresh_cache envv o re db := by
  have hcu : countriesUrl envv' = countriesUrl envv := by
    unfold countriesUrl
    rw [h1]
  have hru : ratesUrl envv' = ratesUrl envv := by
    unfold ratesUrl baseCurrency
    rw [h2, h3]
  unfold refresh_cache refresh_core
  rw [hcu, hru]

/-- Witness for C9's amended statement: an environment that sets only
`PORT` refreshes identically to the empty environment. -/
theorem C9_witness :
    refresh_cache envPort okOracle none db0 = refresh_cache envEmpty okOracle none db0 :=
  C9_amended_env_dependence envEmpty envPort okOracle none db0 (by decide) (by decide)
    (by decide)

end CountryCache

